import Mathlib

/-!
# Verification of `chatmacro` (src/chatmacro.c)

A shallow embedding of the macro-bank / hotkey program `chatmacro.c`:
the keystroke translator inside `hotkey_fn_say`, the file reader
`macros_read`, the `INPUT`-filling helper `mk_kbdinput`, the hotkey
dispatch inside `Win32_CustomEventHandler`, and the hotkey
registration loops in `main`.  Two operations that the specification
describes but whose definitions are absent from the provided source
(the bank/macro cursor navigation behind the declared-but-undefined
`hotkey_fn_macro`, and the registration-toggling `toggle_all_but`
state machine) are modelled from the specification text and marked
as such in their doc comments.

Machine integers are modelled as `Int`/`Nat` with explicit reductions
(`% 256`, `% 65536`) where the C code truncates.
-/

namespace Chatmacro

/-! ## Windows constants used by the program -/

/-- Constant `VK_LSHIFT` (0xA0). -/
def VK_LSHIFT : Int := 160

/-- Constant `VK_RETURN` (0x0D). -/
def VK_RETURN : Int := 13

/-- Constant `VK_NUMPAD0` (0x60), the `HOTKEY_TOGGLE` key. -/
def VK_NUMPAD0 : Nat := 96

/-- Constant `VK_DECIMAL` (0x6E), the `HOTKEY_QUIT` key. -/
def VK_DECIMAL : Nat := 110

/-- Constant `WM_HOTKEY` (0x0312). -/
def WM_HOTKEY : Nat := 786

/-- Constant `INPUT_KEYBOARD` (1). -/
def INPUT_KEYBOARD : Nat := 1

/-- Constant `KEYEVENTF_KEYUP` (0x0002). -/
def KEYEVENTF_KEYUP : Nat := 2

/-- Reinterpret the low byte of a nonnegative value as a signed 8-bit
integer, as the C code does when it stores `scan` into the `s8`
variables `vk` and `sk` in `hotkey_fn_say`. -/
def toS8 (x : Nat) : Int :=
  if x % 256 < 128 then (x % 256 : Nat) else (x % 256 : Nat) - 256

/-! ## `INPUT` records and `mk_kbdinput` -/

/-- The fields of a Win32 `INPUT` structure that `mk_kbdinput` fills in
(`type` plus the `KEYBDINPUT` member `ki`). -/
structure KBDINPUT where
  type : Nat
  wVk : Int
  wScan : Int
  dwFlags : Nat
  time : Nat
  dwExtraInfo : Nat
deriving Repr, DecidableEq

/-- The record that `mk_kbdinput` writes through a non-null pointer:
`type = INPUT_KEYBOARD`, `wVk = vk`, `wScan = sk`,
`dwFlags = key_up ? KEYEVENTF_KEYUP : 0`, `time = 0`,
`dwExtraInfo = 0`. -/
def kbd_fields (vk sk : Int) (key_up : Int) : KBDINPUT :=
  { type := INPUT_KEYBOARD
    wVk := vk
    wScan := sk
    dwFlags := if key_up = 0 then 0 else KEYEVENTF_KEYUP
    time := 0
    dwExtraInfo := 0 }

/-- Function `mk_kbdinput` from `chatmacro.c`: the pointer argument is modelled
as an `Option KBDINPUT` (the pointed-to cell before the call, `none`
for `NULL`); the result is the cell after the call.  A `NULL` input
returns immediately without writing. -/
def mk_kbdinput (input : Option KBDINPUT) (vk sk : Int) (key_up : Int) :
    Option KBDINPUT :=
  match input with
  | none => none
  | some _ => some (kbd_fields vk sk key_up)

/-- A press event: `dwFlags = 0`. -/
def KBDINPUT.isPress (e : KBDINPUT) : Bool := e.dwFlags = 0

/-- A release event: `dwFlags = KEYEVENTF_KEYUP`. -/
def KBDINPUT.isRelease (e : KBDINPUT) : Bool := e.dwFlags = KEYEVENTF_KEYUP

/-! ## The keystroke translator of `hotkey_fn_say`

`hotkey_fn_say` walks the selected line; for each character it calls
`VkKeyScanA` (the OS keyboard-layout collaborator, modelled as the
parameter `km : Char → Nat` returning the `u16` scan value), splits
the result into the low byte `vk` and high byte `sk` (both `s8`),
brackets the key's down/up pair with `VK_LSHIFT` down/up when
`sk & 0x01` is set, and finally appends a single `VK_RETURN` key-down
whose `wScan` field is whatever the loop variable `sk` last held
(`sk0` models its value before the loop). -/

/-- The `u16` scan value `VkKeyScanA` returns for `c` (truncated). -/
def scanOf (km : Char → Nat) (c : Char) : Nat := km c % 65536

/-- Value `vk = (s8) scan` in `hotkey_fn_say`. -/
def vkOf (km : Char → Nat) (c : Char) : Int := toS8 (scanOf km c % 256)

/-- Value `sk = (s8)(scan >> 8)` in `hotkey_fn_say`. -/
def skOf (km : Char → Nat) (c : Char) : Int := toS8 (scanOf km c / 256)

/-- Test `sk & 0x01`: bit 8 of the scan value decides whether shift is
pushed around the character. -/
def requiresShift (km : Char → Nat) (c : Char) : Bool :=
  scanOf km c / 256 % 2 = 1

/-- The `INPUT` events one loop iteration of `hotkey_fn_say` appends
for the character `c`. -/
def charEvents (km : Char → Nat) (c : Char) : List KBDINPUT :=
  let vk := vkOf km c
  (if requiresShift km c then [kbd_fields VK_LSHIFT 0 0] else [])
    ++ [kbd_fields vk 0 0, kbd_fields vk 0 1]
    ++ (if requiresShift km c then [kbd_fields VK_LSHIFT 0 1] else [])

/-- The whole `inputs` array `hotkey_fn_say` builds for the string `s`:
the loop appends `charEvents` for each character in order while the
variable `sk` tracks the last character's high scan byte, and after the
loop one `VK_RETURN` key-down is appended with that `sk` as its `wScan`
(`sk0` is the indeterminate value `sk` holds when `s` is empty). -/
def translate (km : Char → Nat) (sk0 : Int) (s : String) : List KBDINPUT :=
  let p := s.toList.foldl
    (fun (q : List KBDINPUT × Int) c => (q.1 ++ charEvents km c, skOf km c))
    ([], sk0)
  p.1 ++ [kbd_fields VK_RETURN p.2 0]

/-- A concrete keymap for witnesses: `'A'` has scan value `0x0141`
(virtual key `0x41`, shift bit set); every other character has scan
value `0x41` (no shift). -/
def kmA : Char → Nat := fun c => if c = 'A' then 321 else 65

/-! ## `state_t` and `macros_read`

`state_t` is modelled without its SDL handles (`gWindow`, `gRenderer`,
pointers with no observable value here) and without the allocation
capacity `lines_cap`; every other field is kept.  `macros_read` zeroes
the whole structure with `memset`, then opens the file — modelled as
`Option (List String)`: `none` for a failed `fopen`, otherwise the
list of raw lines `fgets` returns — and appends each line right-trimmed
to `state->lines`. -/

/-- The fields of `struct state_t` observable in this model. -/
structure StateT where
  display_w : Int
  display_h : Int
  nonce : Int
  curr : Int
  is_running : Int
  is_active : Int
  mouse_bak_x : Int
  mouse_bak_y : Int
  mouse_x : Int
  mouse_y : Int
  lines : List String
  lines_len : Nat
deriving Repr, DecidableEq

/-- The all-zero state `memset(state, 0, sizeof(*state))` produces. -/
def zeroState : StateT :=
  { display_w := 0, display_h := 0, nonce := 0, curr := 0
    is_running := 0, is_active := 0
    mouse_bak_x := 0, mouse_bak_y := 0, mouse_x := 0, mouse_y := 0
    lines := [], lines_len := 0 }

/-- Modelled from the spec: `rtrim` lives in `common.h`, which is not
in the provided source; the spec describes it as trimming from the
right, "trailing whitespace/newline stripped". -/
def isWhitespace (c : Char) : Bool :=
  c = ' ' ∨ c = '\t' ∨ c = '\n' ∨ c = '\r' ∨ c = '\x0b' ∨ c = '\x0c'

/-- Modelled from the spec: right-trim, dropping trailing whitespace
(including the newline `fgets` keeps). -/
def rtrim (s : String) : String :=
  ⟨(s.toList.reverse.dropWhile isWhitespace).reverse⟩

/-- Function `macros_read` from `chatmacro.c`: zero the state, open the file
(`none` = `fopen` failed, return `-1`), else append `strdup(rtrim(buf))`
for every line read, bump `lines_len`, and return `0`. -/
def macros_read (state : StateT) (file : Option (List String)) :
    StateT × Int :=
  let _ := state
  match file with
  | none => (zeroState, -1)
  | some rawLines =>
    (rawLines.foldl
      (fun st line =>
        { st with lines := st.lines ++ [rtrim line]
                  lines_len := st.lines_len + 1 })
      zeroState, 0)

/-! ## The hotkey table and `Win32_CustomEventHandler`

`main` builds a two-entry `hotkey_t` table (`HOTKEY_TOGGLE` bound to
`hotkey_fn_togglewheel`, `HOTKEY_QUIT` bound to `hotkey_fn_quit`) and
hands it to `Win32_CustomEventHandler` through `hkarg`.  The handler
runs `hotkeys[wparam].func(state)` whenever `message == WM_HOTKEY` and
`state->is_active` is false, with no bounds check on `wparam`. -/

/-- The function pointers that can appear in a `hotkey_t`. -/
inductive ActionId where
  | togglewheel
  | quit
  | macroFn
  | say
deriving Repr, DecidableEq

/-- Structure `struct hotkey_t`. -/
structure HotkeyT where
  vk : Nat
  modifiers : Nat
  func : ActionId
deriving Repr, DecidableEq

/-- The `hotkeys[]` table from `main`. -/
def mainHotkeys : List HotkeyT :=
  [ { vk := VK_NUMPAD0, modifiers := 16384, func := .togglewheel }
  , { vk := VK_DECIMAL, modifiers := 16384, func := .quit } ]

/-- The dispatch performed by `Win32_CustomEventHandler`.  Result
`.ok none` means the guard rejected the event and nothing ran;
`.ok (some a)` means the bound action `a` was invoked; `.error ()`
means the handler read `hotkeys[wparam]` past the end of the table
(undefined behavior in the C program). -/
def dispatch (hotkeys : List HotkeyT) (is_active : Bool)
    (message : Nat) (wparam : Nat) : Except Unit (Option ActionId) :=
  if message = WM_HOTKEY ∧ is_active = false then
    match hotkeys.get? wparam with
    | some hk => .ok (some hk.func)
    | none => .error ()
  else
    .ok none

/-! ## The hotkey (un)registration loops in `main`

`main` walks the table and calls `RegisterHotKey` for each entry; on
a falsy return it prints an error and calls `exit(1)`.  The shutdown
loop does the same with `UnregisterHotKey`.  The OS collaborator is
modelled by the list of success flags it would return, one per
binding, in table order. -/

/-- One (un)registration loop from `main`: `.ok n` means all `n` calls
succeeded and the loop finished; `.error i` means the call for binding
`i` failed and the process exited with status 1 (bindings after `i`
were never attempted). -/
def register_loop : List Bool → Nat → Except Nat Nat
  | [], n => .ok n
  | rc :: rest, n => if rc then register_loop rest (n + 1) else .error n

/-! ## Spec-modelled operations

The bank/macro data model and its cursor navigation sit behind
`hotkey_fn_macro`, which `chatmacro.c` declares (line 117) but never
defines and never binds, and the registration-toggling master switch
`toggle_all_but` has no counterpart in the provided source at all
(the defined `hotkey_fn_togglewheel` toggles the overlay window, not
any binding's registered state).  Both are modelled from the
specification text. -/

/-- Modelled from the spec: a Bank is a named ordered sequence of
macros plus a cursor. -/
structure Bank where
  name : String
  macros : List String
  current_macro_index : Nat
deriving Repr, DecidableEq

/-- Modelled from the spec: a MacroStore is an ordered sequence of
banks plus a cursor. -/
structure MacroStore where
  banks : List Bank
  current_bank_index : Nat
deriving Repr, DecidableEq

/-- Modelled from the spec: the two-branch wraparound shared by
`shift_bank`/`shift_macro_op` — add `delta`; a negative result wraps to
`n - 1`, a result `≥ n` wraps to `0`; a no-op when `n = 0`. -/
def shift_index (n : Nat) (k : Nat) (delta : Int) : Nat :=
  if n = 0 then k
  else
    let r : Int := (k : Int) + delta
    if r < 0 then n - 1
    else if (n : Int) ≤ r then 0
    else r.toNat

/-- Modelled from the spec: `shift_bank(delta)` moves the bank cursor
with the two-branch wraparound. -/
def shift_bank (delta : Int) (st : MacroStore) : MacroStore :=
  { st with current_bank_index :=
      shift_index st.banks.length st.current_bank_index delta }

/-- Modelled from the spec: move a bank's macro cursor with the
two-branch wraparound against its own macro count. -/
def bank_shift (delta : Int) (b : Bank) : Bank :=
  { b with current_macro_index := shift_index b.macros.length b.current_macro_index delta }

/-- Modelled from the spec: `shift_macro_op(delta)` applies the same
wraparound to the active bank's macro cursor against its own macro
count; a no-op when there is no active bank. -/
def shift_macro_op (delta : Int) (st : MacroStore) : MacroStore :=
  match st.banks[st.current_bank_index]? with
  | none => st
  | some b => { st with banks := st.banks.set st.current_bank_index (bank_shift delta b) }

/-- Modelled from the spec: a hotkey binding's toggle-relevant state —
an `always_on` flag and the mutable `registered` flag. -/
structure Binding where
  always_on : Bool
  registered : Bool
deriving Repr, DecidableEq

/-- Modelled from the spec: the body of `toggle_all_but` walking the
binding table from position `i`. -/
def toggle_go (idx : Nat) (i : Nat) : List Binding → List Binding
  | [] => []
  | b :: rest =>
    (if i = idx ∨ b.always_on then b
     else { b with registered := !b.registered }) :: toggle_go idx (i + 1) rest

/-- Modelled from the spec: `toggle_all_but(idx)` flips the
`registered` flag of every binding except the one at `idx` and every
`always_on` binding. -/
def toggle_all_but (idx : Nat) (bs : List Binding) : List Binding :=
  toggle_go idx 0 bs

/-- A concrete bank for witnesses. -/
def bankGreet : Bank :=
  { name := "Greet", macros := ["hi", "bye"], current_macro_index := 0 }

/-- A concrete bank with no macros, for witnesses. -/
def bankEmpty : Bank :=
  { name := "Empty", macros := [], current_macro_index := 0 }

/-- A concrete macro store for witnesses: two banks of two and one
macros. -/
def storeW : MacroStore :=
  { banks :=
      [ bankGreet
      , { name := "Farewell", macros := ["see ya"], current_macro_index := 0 } ]
    current_bank_index := 0 }

/-- A store with no banks, for witnesses. -/
def storeN : MacroStore := { banks := [], current_bank_index := 0 }

/-- A store whose active bank has no macros, for witnesses. -/
def storeE : MacroStore := { banks := [bankEmpty], current_bank_index := 0 }

/-- A concrete binding table for witnesses. -/
def bindingsW : List Binding :=
  [ { always_on := true, registered := true }
  , { always_on := false, registered := true }
  , { always_on := false, registered := false } ]

/-- Count `S`: the number of shift-requiring characters of `s` under the
keymap `km`. -/
def shiftCount (km : Char → Nat) (s : String) : Nat :=
  s.toList.countP (fun c => requiresShift km c)

/-! # Theorems -/

/-! ### Basic structure of the translator output -/

theorem translate_foldl_fst (km : Char → Nat) :
    ∀ (l : List Char) (acc : List KBDINPUT) (k : Int),
      (l.foldl (fun (q : List KBDINPUT × Int) c =>
        (q.1 ++ charEvents km c, skOf km c)) (acc, k)).1
        = acc ++ (l.map (charEvents km)).flatten := by
  intro l
  induction l with
  | nil => intro acc k; simp
  | cons c rest ih =>
    intro acc k
    simp only [List.foldl_cons, List.map_cons, List.flatten_cons]
    rw [ih]
    simp [List.append_assoc]

/-- The translator output is the per-character blocks, in string order,
followed by the single trailing `VK_RETURN` key-down. -/
theorem translate_eq_join (km : Char → Nat) (sk0 : Int) (s : String) :
    ∃ w : Int, translate km sk0 s
      = (s.toList.map (charEvents km)).flatten ++ [kbd_fields VK_RETURN w 0] := by
  refine ⟨(s.toList.foldl (fun (q : List KBDINPUT × Int) c =>
      (q.1 ++ charEvents km c, skOf km c)) ([], sk0)).2, ?_⟩
  show (s.toList.foldl (fun (q : List KBDINPUT × Int) c =>
      (q.1 ++ charEvents km c, skOf km c)) ([], sk0)).1 ++ _ = _
  rw [translate_foldl_fst km s.toList [] sk0]
  simp

/-- Each character contributes 4 events when it needs shift and 2
otherwise. -/
theorem charEvents_length (km : Char → Nat) (c : Char) :
    (charEvents km c).length = if requiresShift km c then 4 else 2 := by
  unfold charEvents
  by_cases h : requiresShift km c <;> simp [h]

theorem flatten_charEvents_length (km : Char → Nat) :
    ∀ l : List Char, ((l.map (charEvents km)).flatten).length
      = 2 * l.length + 2 * l.countP (fun c => requiresShift km c)
  | [] => rfl
  | c :: rest => by
    simp only [List.map_cons, List.flatten_cons, List.length_append,
      List.countP_cons, List.length_cons]
    rw [flatten_charEvents_length km rest, charEvents_length]
    by_cases h : requiresShift km c <;> simp [h] <;> ring

/-! ### C1: length and tail of the event sequence built by
`hotkey_fn_say` -/

/-- C1 (counterexample): the claim says the empty input still yields
the trailing enter *pair* — `4*S + 2*(L-S) + 2 = 2` events for
`L = 0` — but `hotkey_fn_say` appends only a single `VK_RETURN`
key-down after the loop, so the empty string builds exactly 1 event,
not 2. -/
theorem translate_empty_builds_one_event :
    (translate kmA 0 "").length = 1 ∧ (1 : Nat) ≠ 2 := by
  constructor
  · rfl
  · decide

/-- C1 (amended): for input of length `L` with `S` shift-requiring
characters, the built event sequence has exactly `4*S + 2*(L-S) + 1`
entries, and its last entry is a single `press(ENTER)`; for `L = 0`
exactly 1 event is built (the formula with `L = S = 0`). -/
theorem translate_length_law (km : Char → Nat) (sk0 : Int) (s : String) :
    (translate km sk0 s).length
      = 4 * shiftCount km s + 2 * (s.length - shiftCount km s) + 1
    ∧ ∃ e, (translate km sk0 s).getLast? = some e
        ∧ e.wVk = VK_RETURN ∧ e.isPress = true := by
  obtain ⟨w, hw⟩ := translate_eq_join km sk0 s
  constructor
  · have hlen : (translate km sk0 s).length
        = 2 * s.toList.length
          + 2 * s.toList.countP (fun c => requiresShift km c) + 1 := by
      rw [hw, List.length_append, flatten_charEvents_length km s.toList]
      simp
    have h2 : s.toList.countP (fun c => requiresShift km c)
        ≤ s.toList.length := List.countP_le_length _
    have hS : shiftCount km s
        = s.toList.countP (fun c => requiresShift km c) := rfl
    have h3 : s.length = s.toList.length := rfl
    rw [hlen, hS, h3]
    omega
  · refine ⟨kbd_fields VK_RETURN w 0, ?_, rfl, rfl⟩
    rw [hw]
    exact List.getLast?_concat _

/-! ### C6: shift bracketing -/

theorem charEvents_of_shift (km : Char → Nat) (c : Char)
    (h : requiresShift km c = true) :
    charEvents km c
      = [kbd_fields VK_LSHIFT 0 0, kbd_fields (vkOf km c) 0 0,
         kbd_fields (vkOf km c) 0 1, kbd_fields VK_LSHIFT 0 1] := by
  unfold charEvents
  simp [h]

/-- C6: for every shift-requiring character of the input, the built
sequence contains `press(SHIFT)`, `press(vk)`, `release(vk)`,
`release(SHIFT)` consecutively in that order, so shift is never held
across two characters. -/
theorem flatten_contains_block {α β : Type} (f : α → List β) :
    ∀ (l : List α) (a : α), a ∈ l → f a <:+: (l.map f).flatten := by
  intro l
  induction l with
  | nil =>
    intro a ha
    cases ha
  | cons x xs ih =>
    intro a ha
    rw [List.map_cons, List.flatten_cons]
    rcases List.mem_cons.mp ha with h | h
    · subst h
      exact ⟨[], (xs.map f).flatten, by simp⟩
    · exact (ih a h).trans ⟨f x, [], by simp⟩

theorem isInfix_append_right {α : Type} {l₁ l₂ r : List α}
    (h : l₁ <:+: l₂) : l₁ <:+: l₂ ++ r := by
  obtain ⟨s, t, rfl⟩ := h
  exact ⟨s, t ++ r, by simp⟩

theorem translate_shift_bracketing (km : Char → Nat) (sk0 : Int)
    (s : String) (c : Char) (hc : c ∈ s.toList)
    (hs : requiresShift km c = true) :
    [kbd_fields VK_LSHIFT 0 0, kbd_fields (vkOf km c) 0 0,
     kbd_fields (vkOf km c) 0 1, kbd_fields VK_LSHIFT 0 1]
      <:+: translate km sk0 s := by
  obtain ⟨w, hw⟩ := translate_eq_join km sk0 s
  rw [hw, ← charEvents_of_shift km c hs]
  exact isInfix_append_right
    (flatten_contains_block (charEvents km) s.toList c hc)

/-- C6 (witness): in `"A"` under the concrete keymap `kmA`, where
`'A'` requires shift, the bracketed four-event block occurs in the
translator output. -/
theorem translate_shift_bracketing_witness :
    [kbd_fields VK_LSHIFT 0 0, kbd_fields (vkOf kmA 'A') 0 0,
     kbd_fields (vkOf kmA 'A') 0 1, kbd_fields VK_LSHIFT 0 1]
      <:+: translate kmA 0 "A" :=
  translate_shift_bracketing kmA 0 "A" 'A' (by decide) (by decide)

/-! ### C2: what `macros_read` actually does with the file's lines -/

theorem macros_read_fold (rawLines : List String) :
    ∀ st : StateT,
      ((rawLines.foldl (fun st line =>
          { st with lines := st.lines ++ [rtrim line]
                    lines_len := st.lines_len + 1 }) st).lines
        = st.lines ++ rawLines.map rtrim)
      ∧ ((rawLines.foldl (fun st line =>
          { st with lines := st.lines ++ [rtrim line]
                    lines_len := st.lines_len + 1 }) st).lines_len
        = st.lines_len + rawLines.length) := by
  induction rawLines with
  | nil => intro st; simp
  | cons l rest ih =>
    intro st
    obtain ⟨h1, h2⟩ := ih ({ st with lines := st.lines ++ [rtrim l]
                                     lines_len := st.lines_len + 1 })
    constructor
    · rw [List.foldl_cons, h1]
      simp
    · rw [List.foldl_cons, h2]
      simp
      omega

/-- C2 (counterexample): `macros_read` given the file
`Greet\n\thi\n# c\n\n` stores all four right-trimmed lines verbatim in
the flat `lines` array — the comment line `"# c"` and the empty line
are *not* ignored, the tab of `"\thi"` is *not* stripped, and no bank
structure exists at all — whereas the claim requires the comment and
blank lines to contribute nothing and the tab line to be left-trimmed
into a bank's macro list. -/
theorem macros_read_stores_all_lines :
    (macros_read zeroState (some ["Greet", "\thi", "# c", ""])).1.lines
        = ["Greet", "\thi", "# c", ""]
    ∧ "# c" ∈ (macros_read zeroState
        (some ["Greet", "\thi", "# c", ""])).1.lines
    ∧ (["Greet", "\thi", "# c", ""] : List String)
        ≠ ["Greet", "hi"] := by
  refine ⟨by decide, by decide, by decide⟩

/-- C2 (amended): `macros_read` performs no per-line classification:
every line of the file, right-trimmed, is appended to the single flat
`lines` list in exactly file order — comment, blank and tab-led lines
included, leading tabs kept — `lines_len` counts them, and the call
returns 0. -/
theorem macros_read_flat_file_order (prev : StateT) (rawLines : List String) :
    (macros_read prev (some rawLines)).1.lines = rawLines.map rtrim
    ∧ (macros_read prev (some rawLines)).1.lines_len = rawLines.length
    ∧ (macros_read prev (some rawLines)).2 = 0 := by
  obtain ⟨h1, h2⟩ := macros_read_fold rawLines zeroState
  refine ⟨?_, ?_, rfl⟩
  · show (rawLines.foldl (fun st line =>
        { st with lines := st.lines ++ [rtrim line]
                  lines_len := st.lines_len + 1 }) zeroState).lines = _
    rw [h1]
    simp [zeroState]
  · show (rawLines.foldl (fun st line =>
        { st with lines := st.lines ++ [rtrim line]
                  lines_len := st.lines_len + 1 }) zeroState).lines_len = _
    rw [h2]
    simp [zeroState]

/-! ### C9: `macros_read` discards the previous state -/

/-- C9: `macros_read` zeroes the whole state structure before reading
(`memset` precedes `fopen`), so its result never depends on the
previous state, and a failed open returns `-1` beside the zero state:
no stored lines, `lines_len = 0`, cursor `curr = 0`. -/
theorem macros_read_zeroes_state (prev : StateT)
    (file : Option (List String)) :
    macros_read prev file = macros_read zeroState file
    ∧ macros_read prev none = (zeroState, -1)
    ∧ (macros_read prev none).1.lines = []
    ∧ (macros_read prev none).1.lines_len = 0
    ∧ (macros_read prev none).1.curr = 0 :=
  ⟨rfl, rfl, rfl, rfl, rfl⟩

/-! ### C10: `mk_kbdinput` and the NULL pointer -/

/-- Calling `mk_kbdinput` through a non-null pointer writes exactly the
`kbd_fields` record. -/
theorem mk_kbdinput_some (e : KBDINPUT) (vk sk : Int) (key_up : Int) :
    mk_kbdinput (some e) vk sk key_up = some (kbd_fields vk sk key_up) :=
  rfl

/-- C10: `mk_kbdinput` called with a NULL `input` pointer returns
without writing anything, for every `vk`, `sk`, `key_up`. -/
theorem mk_kbdinput_null_noop (vk sk : Int) (key_up : Int) :
    mk_kbdinput none vk sk key_up = none :=
  rfl

/-! ### C3 and C8: the dispatch in `Win32_CustomEventHandler` -/

/-- C3 (code bug): `Win32_CustomEventHandler` never checks `wparam`
against the table length, so a `WM_HOTKEY` whose id is not bound in
the 2-entry table from `main`, delivered while the overlay is
inactive, reads `hotkeys[wparam]` past the end of the table — an
out-of-bounds access (undefined behavior), not the silent no-op the
claim requires. -/
theorem dispatch_unknown_trigger_faults :
    dispatch mainHotkeys false WM_HOTKEY 2 = .error ()
    ∧ mainHotkeys.length = 2 :=
  ⟨rfl, rfl⟩

/-- C8: while `is_active` is true the guard
`message == WM_HOTKEY && !state->is_active` rejects every delivered
event, so no bound action is ever invoked; conversely an invoked
action forces `is_active = false`. -/
theorem dispatch_inactive_only (hotkeys : List HotkeyT)
    (message wparam : Nat) :
    dispatch hotkeys true message wparam = .ok none
    ∧ ∀ (b : Bool) (a : ActionId),
        dispatch hotkeys b message wparam = .ok (some a) → b = false := by
  constructor
  · unfold dispatch
    simp
  · intro b a h
    cases b with
    | false => rfl
    | true =>
      unfold dispatch at h
      simp at h

/-- C8 (witness): the toggle action does run at id 0 when the overlay
is inactive, and the implication instantiated there yields
`false = false`. -/
theorem dispatch_inactive_only_witness : false = false :=
  (dispatch_inactive_only mainHotkeys WM_HOTKEY 0).2 false .togglewheel rfl

/-! ### C5: the (un)registration loops in `main` exit on failure -/

/-- C5 (counterexample): with the OS collaborator failing the call for
binding 0 and ready to succeed for binding 1, the loop from `main`
stops at binding 0 with `exit(1)` (modelled `.error 0`): the remaining
binding is never attempted and the process terminates, whereas the
claim requires a reported, non-fatal failure with every remaining
binding still attempted (`.ok 2`). -/
theorem register_loop_stops_at_first_failure :
    register_loop [false, true] 0 = .error 0
    ∧ register_loop [false, true] 0 ≠ .ok 2 := by
  refine ⟨rfl, ?_⟩
  intro h
  simp [register_loop] at h

/-- C5 (amended): a failed `RegisterHotKey`/`UnregisterHotKey` call is
reported and fatal: the loop exits the process (`exit(1)`) at the
first failing binding, never reaching the bindings after it. -/
theorem register_loop_fatal_on_failure (pre post : List Bool) (n : Nat)
    (hpre : ∀ r ∈ pre, r = true) :
    register_loop (pre ++ false :: post) n = .error (n + pre.length) := by
  induction pre generalizing n with
  | nil => simp [register_loop]
  | cons r rest ih =>
    have hr : r = true := hpre r (by simp)
    subst hr
    show register_loop (true :: (rest ++ false :: post)) n = _
    rw [show register_loop (true :: (rest ++ false :: post)) n
        = register_loop (rest ++ false :: post) (n + 1) from rfl]
    rw [ih (n + 1) (fun x hx => hpre x (by simp [hx]))]
    congr 1
    simp
    omega

/-- C5 (witness): with binding 0 succeeding and binding 1 failing, the
loop exits with `.error 1`. -/
theorem register_loop_fatal_on_failure_witness :
    register_loop ([true] ++ false :: [true]) 0 = .error (0 + [true].length) :=
  register_loop_fatal_on_failure [true] [true] 0 (by decide)

/-! ### C4: cursor wraparound (spec-modelled navigation) -/

theorem shift_index_zero_count (k : Nat) (d : Int) : shift_index 0 k d = k := by
  simp [shift_index]

theorem shift_index_one_step {n k : Nat} (h : k < n) :
    shift_index n k 1 = (k + 1) % n := by
  have hn : ¬ n = 0 := by omega
  unfold shift_index
  rw [if_neg hn]
  dsimp only
  have h0 : ¬ ((k : Int) + 1 < 0) := by omega
  rw [if_neg h0]
  by_cases hk : (n : Int) ≤ (k : Int) + 1
  · rw [if_pos hk]
    have he : k + 1 = n := by omega
    rw [he, Nat.mod_self]
  · rw [if_neg hk]
    have hlt : k + 1 < n := by omega
    rw [Nat.mod_eq_of_lt hlt]
    omega

theorem shift_index_iterate (n : Nat) (hn : 0 < n) :
    ∀ (j k : Nat), k < n →
      (fun x => shift_index n x 1)^[j] k = (k + j) % n := by
  intro j
  induction j with
  | zero =>
    intro k hk
    simpa using (Nat.mod_eq_of_lt hk).symm
  | succ j ih =>
    intro k hk
    rw [Function.iterate_succ_apply]
    show (fun x => shift_index n x 1)^[j] (shift_index n k 1) = _
    rw [shift_index_one_step hk, ih ((k + 1) % n) (Nat.mod_lt _ hn),
      Nat.mod_add_mod]
    congr 1
    omega

theorem shift_bank_iterate (j : Nat) :
    ∀ st : MacroStore,
      ((shift_bank 1)^[j] st).current_bank_index
        = (fun x => shift_index st.banks.length x 1)^[j] st.current_bank_index
      ∧ ((shift_bank 1)^[j] st).banks = st.banks := by
  induction j with
  | zero => intro st; exact ⟨rfl, rfl⟩
  | succ j ih =>
    intro st
    rw [Function.iterate_succ_apply, Function.iterate_succ_apply]
    obtain ⟨h1, h2⟩ := ih (shift_bank 1 st)
    exact ⟨h1, h2⟩

theorem list_set_of_getElem? {α : Type} :
    ∀ (l : List α) (i : Nat) (b : α), l[i]? = some b → l.set i b = l
  | [], i, b, h => by simp at h
  | a :: t, 0, b, h => by
    simp only [List.getElem?_cons_zero, Option.some.injEq] at h
    simp [h]
  | a :: t, i + 1, b, h => by
    simp only [List.getElem?_cons_succ] at h
    simp only [List.set]
    rw [list_set_of_getElem? t i b h]

theorem length_of_getElem? {α : Type} {l : List α} {i : Nat} {b : α}
    (h : l[i]? = some b) : i < l.length := by
  by_contra hc
  rw [List.getElem?_eq_none (by omega)] at h
  exact Option.noConfusion h

theorem shift_macro_op_iterate (j : Nat) :
    ∀ (st : MacroStore) (b : Bank),
      st.banks[st.current_bank_index]? = some b →
      ∃ b' : Bank,
        ((shift_macro_op 1)^[j] st).banks[st.current_bank_index]? = some b'
        ∧ b'.current_macro_index
            = (fun x => shift_index b.macros.length x 1)^[j]
                b.current_macro_index
        ∧ b'.macros = b.macros
        ∧ ((shift_macro_op 1)^[j] st).current_bank_index
            = st.current_bank_index := by
  induction j with
  | zero =>
    intro st b hb
    exact ⟨b, hb, rfl, rfl, rfl⟩
  | succ j ih =>
    intro st b hb
    rw [Function.iterate_succ_apply]
    have hstep : shift_macro_op 1 st
        = { st with banks := st.banks.set st.current_bank_index (bank_shift 1 b) } := by
      unfold shift_macro_op
      rw [hb]
    have hlt : st.current_bank_index < st.banks.length := length_of_getElem? hb
    have hidx : (shift_macro_op 1 st).current_bank_index
        = st.current_bank_index := by rw [hstep]
    have hget : (shift_macro_op 1 st).banks[(shift_macro_op 1 st).current_bank_index]?
        = some (bank_shift 1 b) := by
      rw [hstep]
      exact List.getElem?_set_eq_of_lt _ hlt
    obtain ⟨b', hb', hcmi, hm, hcbi⟩ := ih (shift_macro_op 1 st) (bank_shift 1 b) hget
    rw [hidx] at hb' hcbi
    refine ⟨b', hb', ?_, hm, hcbi⟩
    rw [hcmi, Function.iterate_succ_apply]
    rfl

/-- C4: the spec-modelled two-branch wraparound: for a store with
`N ≥ 1` banks and in-range cursor `k`, `shift_bank(+1)` iterated `N`
times returns the cursor to `k`; `shift_bank(-1)` from index 0 yields
`N - 1`; with no banks `shift_bank` is a no-op; and `shift_macro_op`
obeys the same three laws against the active bank's macro count. -/
theorem shift_cursor_wraparound (st : MacroStore) (d : Int) :
    (st.current_bank_index < st.banks.length →
      ((shift_bank 1)^[st.banks.length] st).current_bank_index
        = st.current_bank_index)
    ∧ (st.banks.length ≠ 0 → st.current_bank_index = 0 →
        (shift_bank (-1) st).current_bank_index = st.banks.length - 1)
    ∧ (st.banks = [] → shift_bank d st = st)
    ∧ (∀ b : Bank, st.banks[st.current_bank_index]? = some b →
        b.current_macro_index < b.macros.length →
        ∃ b' : Bank,
          ((shift_macro_op 1)^[b.macros.length] st).banks[st.current_bank_index]?
            = some b'
          ∧ b'.current_macro_index = b.current_macro_index)
    ∧ (∀ b : Bank, st.banks[st.current_bank_index]? = some b →
        b.current_macro_index = 0 → b.macros ≠ [] →
        ∃ b' : Bank,
          (shift_macro_op (-1) st).banks[st.current_bank_index]? = some b'
          ∧ b'.current_macro_index = b.macros.length - 1)
    ∧ (∀ b : Bank, st.banks[st.current_bank_index]? = some b →
        b.macros = [] → shift_macro_op d st = st) := by
  refine ⟨?_, ?_, ?_, ?_, ?_, ?_⟩
  · intro hk
    obtain ⟨h1, _⟩ := shift_bank_iterate st.banks.length st
    rw [h1, shift_index_iterate st.banks.length (by omega) _ _ hk,
      Nat.add_mod_right, Nat.mod_eq_of_lt hk]
  · intro hN h0
    show shift_index st.banks.length st.current_bank_index (-1)
      = st.banks.length - 1
    unfold shift_index
    rw [if_neg hN]
    dsimp only
    rw [h0]
    norm_num
  · intro hb
    have h0 : st.banks.length = 0 := by rw [hb]; rfl
    show (⟨st.banks,
      shift_index st.banks.length st.current_bank_index d⟩ : MacroStore) = st
    rw [h0, shift_index_zero_count]
  · intro b hb hk
    obtain ⟨b', hb', hcmi, _, _⟩ :=
      shift_macro_op_iterate b.macros.length st b hb
    refine ⟨b', hb', ?_⟩
    rw [hcmi, shift_index_iterate b.macros.length (by omega) _ _ hk,
      Nat.add_mod_right, Nat.mod_eq_of_lt hk]
  · intro b hb h0 hm
    have hM : b.macros.length ≠ 0 := by
      intro hc
      exact hm (List.length_eq_zero.mp hc)
    have hstep : shift_macro_op (-1) st
        = { st with banks := st.banks.set st.current_bank_index (bank_shift (-1) b) } := by
      unfold shift_macro_op
      rw [hb]
    have hlt : st.current_bank_index < st.banks.length := length_of_getElem? hb
    refine ⟨bank_shift (-1) b, ?_, ?_⟩
    · rw [hstep]
      exact List.getElem?_set_eq_of_lt _ hlt
    · show shift_index b.macros.length b.current_macro_index (-1)
        = b.macros.length - 1
      unfold shift_index
      rw [if_neg hM]
      dsimp only
      rw [h0]
      norm_num
  · intro b hb hm
    have h0 : b.macros.length = 0 := by rw [hm]; rfl
    have hb2 : bank_shift d b = b := by
      unfold bank_shift
      rw [h0, shift_index_zero_count]
    unfold shift_macro_op
    rw [hb]
    dsimp only
    rw [hb2, list_set_of_getElem? st.banks st.current_bank_index b hb]

/-- C4 (witness): the laws evaluated on concrete stores — `storeW`
(two banks, active bank with two macros), `storeN` (no banks) and
`storeE` (active bank with no macros). -/
theorem shift_cursor_wraparound_witness :
    (((shift_bank 1)^[storeW.banks.length] storeW).current_bank_index
        = storeW.current_bank_index)
    ∧ ((shift_bank (-1) storeW).current_bank_index
        = storeW.banks.length - 1)
    ∧ (shift_bank 3 storeN = storeN)
    ∧ (∃ b' : Bank,
        ((shift_macro_op 1)^[bankGreet.macros.length]
            storeW).banks[storeW.current_bank_index]? = some b'
        ∧ b'.current_macro_index = bankGreet.current_macro_index)
    ∧ (∃ b' : Bank,
        (shift_macro_op (-1) storeW).banks[storeW.current_bank_index]? = some b'
        ∧ b'.current_macro_index = bankGreet.macros.length - 1)
    ∧ (shift_macro_op 3 storeE = storeE) := by
  have hW := shift_cursor_wraparound storeW 3
  have hN := shift_cursor_wraparound storeN 3
  have hE := shift_cursor_wraparound storeE 3
  exact ⟨hW.1 (by decide), hW.2.1 (by decide) rfl, hN.2.2.1 rfl,
    hW.2.2.2.1 bankGreet rfl (by decide),
    hW.2.2.2.2.1 bankGreet rfl rfl (by decide),
    hE.2.2.2.2.2 bankEmpty rfl rfl⟩

/-! ### C7: toggle involution (spec-modelled) -/

theorem toggle_go_involutive (idx : Nat) :
    ∀ (i : Nat) (bs : List Binding),
      toggle_go idx i (toggle_go idx i bs) = bs
  | _, [] => rfl
  | i, b :: rest => by
    by_cases h : i = idx ∨ b.always_on
    · have e1 : toggle_go idx i (b :: rest)
          = b :: toggle_go idx (i + 1) rest := by
        simp only [toggle_go]
        rw [if_pos h]
      rw [e1]
      have e2 : toggle_go idx i (b :: toggle_go idx (i + 1) rest)
          = b :: toggle_go idx (i + 1) (toggle_go idx (i + 1) rest) := by
        simp only [toggle_go]
        rw [if_pos h]
      rw [e2, toggle_go_involutive idx (i + 1) rest]
    · have e1 : toggle_go idx i (b :: rest)
          = ({ b with registered := !b.registered } : Binding)
            :: toggle_go idx (i + 1) rest := by
        simp only [toggle_go]
        rw [if_neg h]
      rw [e1]
      have h2 : ¬ (i = idx
          ∨ ({ b with registered := !b.registered } : Binding).always_on) := h
      have e2 : toggle_go idx i (({ b with registered := !b.registered } : Binding)
            :: toggle_go idx (i + 1) rest)
          = ({ b with registered := !(!b.registered) } : Binding)
            :: toggle_go idx (i + 1) (toggle_go idx (i + 1) rest) := by
        simp only [toggle_go]
        rw [if_neg h2]
      rw [e2, toggle_go_involutive idx (i + 1) rest]
      simp

/-- C7: `toggle_all_but(idx)` applied twice with the same `idx`
restores every binding's `registered` state (indeed the whole table)
to its value before the first application, for every starting table. -/
theorem toggle_all_but_involutive (idx : Nat) (bs : List Binding) :
    toggle_all_but idx (toggle_all_but idx bs) = bs :=
  toggle_go_involutive idx 0 bs

end Chatmacro
